import Mathlib

/-!
Verification development for the mktiles mosaic generator.

The embedding below translates the C++ source (the `Palette` class with its
CSV constructor and `getSpecFromPalette`, the `circleMask` cell-to-part
mapping, the per-tile aggregation and error-diffusing quantization loop of
`groupByMask`, and the part-count tally of `repaint`) into executable Lean
definitions.  Colors are perceptual-space (Lab) triples modelled as
`Fin 3 → ℚ`; the C++ `double`/`float` arithmetic is modelled exactly over ℚ.
-/

set_option maxHeartbeats 1000000

/-- One perceptual-space color: three rational channels (l, a, b). -/
abbrev Chan := Fin 3 → ℚ

/-- One catalog entry, mirroring `Palette::ColorSpec`: identifier, display
name, source color (r, g, b), perceptual color, and four one-character
availability flags indexed by part id (plate1x1, tile1x1, round1x1,
round2x2).  `colorLab` is filled by the external BGR→Lab conversion; the
CSV parser leaves it at the zero placeholder. -/
structure ColorSpec where
  id : String
  name : String
  colorR : ℕ
  colorG : ℕ
  colorB : ℕ
  colorLab : Chan
  availability : Fin 4 → Char
deriving DecidableEq

/-- Weighted squared Lab distance from `Palette::getSpecFromPalette`:
`(state.luminanceFactor/500.0) * (c.l - s.l)^2 + (c.a - s.a)^2 + (c.b - s.b)^2`. -/
def distLab (lumFactor : ℤ) (c : Chan) (s : ColorSpec) : ℚ :=
  ((lumFactor : ℚ) / 500) * (c 0 - s.colorLab 0) ^ 2
    + (c 1 - s.colorLab 1) ^ 2 + (c 2 - s.colorLab 2) ^ 2

/-- A Swatch is eligible for a part when its availability flag is the
character `'+'` (`spec.availability.indexed[partId] == '+'`). -/
def eligible (partId : Fin 4) (s : ColorSpec) : Prop :=
  s.availability partId = '+'

instance (partId : Fin 4) (s : ColorSpec) : Decidable (eligible partId s) := by
  unfold eligible; infer_instance

/-- `dist < minDist` test of the loop.  `none` stands for the initial
`minDist = numeric_limits<double>::max()`, which every actual distance
beats. -/
def beats (d : ℚ) : Option (ColorSpec × ℚ) → Bool
  | none => true
  | some p => decide (d < p.2)

/-- One iteration of the `for (auto &spec : availableColors)` loop of
`Palette::getSpecFromPalette`: replace the running best exactly when the
Swatch is eligible and strictly closer. -/
def paletteStep (lumFactor : ℤ) (c : Chan) (partId : Fin 4)
    (acc : Option (ColorSpec × ℚ)) (spec : ColorSpec) : Option (ColorSpec × ℚ) :=
  let d := distLab lumFactor c spec
  if spec.availability partId = '+' ∧ beats d acc = true then some (spec, d) else acc

/-- The whole scan of `availableColors`. -/
def paletteFold (lumFactor : ℤ) (c : Chan) (partId : Fin 4)
    (pal : List ColorSpec) (acc : Option (ColorSpec × ℚ)) : Option (ColorSpec × ℚ) :=
  pal.foldl (paletteStep lumFactor c partId) acc

/-- `Palette::getSpecFromPalette`: the nearest eligible Swatch, or `none`
when no Swatch is eligible — the case the C++ turns into a fatal
`assert(minSpec != nullptr)`. -/
def getSpecFromPalette (lumFactor : ℤ) (pal : List ColorSpec)
    (c : Chan) (partId : Fin 4) : Option ColorSpec :=
  (paletteFold lumFactor c partId pal none).map Prod.fst

/-! ## Catalog file parsing (`Palette::Palette(string paletteFile)`)

The constructor reads the stream through a `&&`-chained sequence of
`getline` / `operator>>` / `ignore` calls inside a `while` loop.  We model
the stream as the remaining list of characters; a failed extraction maps to
`Option.none` (C++ failbit), which short-circuits the chain exactly as the
`&&` operators do. -/

/-- Whitespace skipped by formatted `operator>>` extraction. -/
def isStreamSpace (c : Char) : Bool :=
  c = ' ' || c = '\t' || c = '\n' || c = '\r'

/-- Split off the characters before the first occurrence of `delim`; the
delimiter itself is consumed and discarded. -/
def splitUntil (delim : Char) : List Char → List Char × List Char
  | [] => ([], [])
  | c :: rest =>
    if c = delim then ([], rest)
    else
      let p := splitUntil delim rest
      (c :: p.1, p.2)

/-- `std::getline(in, field, delim)`: fails only when the stream is already
exhausted (failbit on zero extracted characters); otherwise reads through
the delimiter (or to end of input). -/
def getlineUntil (delim : Char) (s : List Char) : Option (List Char × List Char) :=
  match s with
  | [] => none
  | _ => some (splitUntil delim s)

/-- `in.ignore(numeric_limits<streamsize>::max(), delim)`: discard through
the delimiter; reaching end of input only sets eofbit, never failbit, so
this operation always succeeds. -/
def ignoreThru (delim : Char) : List Char → List Char
  | [] => []
  | c :: rest => if c = delim then rest else ignoreThru delim rest

/-- Numeric extraction `in >> (uint16_t)`: skip whitespace, read a digit
run; fail when there is no digit or the value overflows `uint16_t`. -/
def extractNat (s : List Char) : Option (ℕ × List Char) :=
  let t := s.dropWhile isStreamSpace
  let digits := t.takeWhile Char.isDigit
  if digits.isEmpty then none
  else
    let v := digits.foldl (fun a c => a * 10 + (c.toNat - 48)) 0
    if v ≥ 65536 then none else some (v, t.dropWhile Char.isDigit)

/-- Character extraction `in >> (uint8_t)`: skip whitespace, take one
character; fail at end of input. -/
def extractChar (s : List Char) : Option (Char × List Char) :=
  match s.dropWhile isStreamSpace with
  | [] => none
  | c :: rest => some (c, rest)

/-- One iteration of the constructor's `while` condition: the chained
`getline`/`ignore`/`>>` extractions producing one `ColorSpec`.  Any failed
step short-circuits the whole record (the `&&` chain), so a malformed
record yields `none`. -/
def parseRecord (s : List Char) : Option (ColorSpec × List Char) := do
  let (idChars, s) ← getlineUntil ',' s
  let (nameChars, s) ← getlineUntil ',' s
  let s := ignoreThru '"' s
  let (r, s) ← extractNat s
  let s := ignoreThru ',' s
  let (g, s) ← extractNat s
  let s := ignoreThru ',' s
  let (b, s) ← extractNat s
  let s := ignoreThru '"' s
  let s := ignoreThru ',' s
  let s := ignoreThru ',' s
  let (p1, s) ← extractChar s
  let s := ignoreThru ',' s
  let (t1, s) ← extractChar s
  let s := ignoreThru ',' s
  let (r1, s) ← extractChar s
  let s := ignoreThru ',' s
  let (r2, s) ← extractChar s
  let s := ignoreThru '\n' s
  some (⟨String.mk idChars, String.mk nameChars, r, g, b,
         fun _ => 0, ![p1, t1, r1, r2]⟩, s)

/-- The `while (...) availableColors.push_back(create);` loop: keep parsing
records until a record fails; the loop then exits.  `fuel` bounds the
recursion; every successful record consumes at least one character, so
`input.length + 1` is always enough. -/
def parseRecords (fuel : ℕ) (s : List Char) : List ColorSpec :=
  match fuel with
  | 0 => []
  | fuel + 1 =>
    match parseRecord s with
    | none => []
    | some (rec, s') => rec :: parseRecords fuel s'

/-- The whole constructor body on a catalog file's characters: skip the
header line, then run the record loop. -/
def parsePalette (input : List Char) : List ColorSpec :=
  parseRecords (input.length + 1) (ignoreThru '\n' input)

/-! ## Tile template cell-to-part mapping and per-cell averages -/

/-- `mc.groupIdToPart = {1, 1, 1, 1, 3, 2}` from `circleMask`: the four
quadrant cells use part 1 (tile1x1), the large circle part 3 (round2x2),
the small circle part 2 (round1x1). -/
def groupIdToPart : Fin 6 → Fin 4 := ![1, 1, 1, 1, 3, 2]

/-- One pixel of the per-tile aggregation sweep of `groupByMask`: add 1 to
the pixel's cell's per-channel count and the channel value to the cell's
per-channel sum. -/
def aggStep (cs : (Fin 6 → Fin 3 → ℕ) × (Fin 6 → Fin 3 → ℚ)) (p : Fin 6 × Chan) :
    (Fin 6 → Fin 3 → ℕ) × (Fin 6 → Fin 3 → ℚ) :=
  (fun g i => if g = p.1 then cs.1 g i + 1 else cs.1 g i,
   fun g i => if g = p.1 then cs.2 g i + p.2 i else cs.2 g i)

/-- The whole aggregation sweep over a tile's pixels (each given with the
cell id its mask position maps to), from zeroed counts and sums. -/
def aggregate (pixels : List (Fin 6 × Chan)) :
    (Fin 6 → Fin 3 → ℕ) × (Fin 6 → Fin 3 → ℚ) :=
  pixels.foldl aggStep (fun _ _ => 0, fun _ _ => 0)

/-- The group values of `groupByMask`:
`sum[i] / std::max(count[i], 1ull)` per channel. -/
def groupValues (pixels : List (Fin 6 × Chan)) (g : Fin 6) : Chan :=
  fun i => (aggregate pixels).2 g i / ((max ((aggregate pixels).1 g i) 1 : ℕ) : ℚ)

/-! ## The error-diffusing quantizer of `groupByMask`

`currentRow` / `nextRow` are `vector<array<Vec3f, 6>>` of length
`nrCols = image.cols / tileWidth + 2`; each entry holds one accumulated
error vector per cell.  `auto &err = currentRow[cc]` aliases the current
column's entry, so every `err[k] += ...` is an update of
`currentRow[cc][k]`. -/

/-- One diffusion-buffer entry: accumulated error per cell. -/
abbrev ErrCell := Fin 6 → Chan

/-- Read a buffer entry (zero outside the allocated range; the bounds
theorems show in-range indices are the only ones used). -/
def getCell (buf : List ErrCell) (i : ℕ) : ErrCell :=
  buf.getD i (fun _ _ => 0)

/-- `buf[i][k] += v`. -/
def addAt (buf : List ErrCell) (i : ℕ) (k : Fin 6) (v : Chan) : List ErrCell :=
  buf.set i (Function.update (getCell buf i) k (getCell buf i k + v))

/-- `error * (w/16.)` — componentwise scaling of a Vec3f. -/
def scale (w : ℚ) (v : Chan) : Chan := fun i => w * v i

/-- The data of one `palette.getSpecFromPalette(...)` call inside the
quantizer: which cell's average was being quantized, which part id was
passed, the accumulated error read from the buffer, the target color, the
chosen Swatch color, and the residual `target - chosen`. -/
structure QuantQuery where
  cell : Fin 6
  part : Fin 4
  errIn : Chan
  target : Chan
  chosen : Chan
  residual : Chan
deriving DecidableEq

/-- Result of one quantization step: the palette query made plus the two
updated diffusion buffers. -/
structure StepOut where
  query : QuantQuery
  curr : List ErrCell
  next : List ErrCell
deriving DecidableEq

/-- The common shape of each quantization call:
`targetColor = groupValues[cell] + err[cell];`
`avg[cell] = palette.getSpecFromPalette(targetColor, mc.groupIdToPart[cell]);`
`error = targetColor - avg[cell]->colorLab;`.
`q` abstracts the catalog's answer (the chosen Swatch's Lab color). -/
def quantCell (q : Fin 4 → Chan → Chan) (gv : Fin 6 → Chan) (cell : Fin 6)
    (cc : ℕ) (curr : List ErrCell) : QuantQuery :=
  let errIn := getCell curr cc cell
  let target := gv cell + errIn
  let chosen := q (groupIdToPart cell) target
  ⟨cell, groupIdToPart cell, errIn, target, chosen, target - chosen⟩

/-- `// quantize left upper 1x1` (cell 0): diffuse 3/16 to
`nextRow[cc-1][2]` when `cc > 0`, 5/16 to `err[2]`, 3/16 to `err[5]`.
The `err[4] += error*(7/16.)` line is commented out in the source, so only
11/16 of the residual is diffused. -/
def step0 (q : Fin 4 → Chan → Chan) (gv : Fin 6 → Chan) (cc : ℕ)
    (curr next : List ErrCell) : StepOut :=
  let Q := quantCell q gv 0 cc curr
  let e := Q.residual
  let next := if cc ≠ 0 then addAt next (cc - 1) 2 (scale (3/16) e) else next
  let curr := addAt curr cc 2 (scale (5/16) e)
  let curr := addAt curr cc 5 (scale (3/16) e)
  ⟨Q, curr, next⟩

/-- `// quantize large circle` (cell 4): 3/16 to `err[2]`, 4/16 to
`nextRow[cc][4]`, 4/16 to `err[5]`, 5/16 to `currentRow[cc+1][4]`. -/
def step4 (q : Fin 4 → Chan → Chan) (gv : Fin 6 → Chan) (cc : ℕ)
    (curr next : List ErrCell) : StepOut :=
  let Q := quantCell q gv 4 cc curr
  let e := Q.residual
  let curr := addAt curr cc 2 (scale (3/16) e)
  let next := addAt next cc 4 (scale (4/16) e)
  let curr := addAt curr cc 5 (scale (4/16) e)
  let curr := addAt curr (cc + 1) 4 (scale (5/16) e)
  ⟨Q, curr, next⟩

/-- `// quantize right upper 1x1` (cell 2): 7/16 to `currentRow[cc+1][0]`,
3/16 to `err[5]`, 5/16 to `err[3]`, 1/16 to `currentRow[cc+1][4]`. -/
def step2 (q : Fin 4 → Chan → Chan) (gv : Fin 6 → Chan) (cc : ℕ)
    (curr next : List ErrCell) : StepOut :=
  let Q := quantCell q gv 2 cc curr
  let e := Q.residual
  let curr := addAt curr (cc + 1) 0 (scale (7/16) e)
  let curr := addAt curr cc 5 (scale (3/16) e)
  let curr := addAt curr cc 3 (scale (5/16) e)
  let curr := addAt curr (cc + 1) 4 (scale (1/16) e)
  ⟨Q, curr, next⟩

/-- `// quantize small circle` (cell 5): 3/16 to `err[1]`, 5/16 to
`err[3]`, 7/16 to `currentRow[cc+1][0]`, 1/16 to `currentRow[cc+1][1]`. -/
def step5 (q : Fin 4 → Chan → Chan) (gv : Fin 6 → Chan) (cc : ℕ)
    (curr next : List ErrCell) : StepOut :=
  let Q := quantCell q gv 5 cc curr
  let e := Q.residual
  let curr := addAt curr cc 1 (scale (3/16) e)
  let curr := addAt curr cc 3 (scale (5/16) e)
  let curr := addAt curr (cc + 1) 0 (scale (7/16) e)
  let curr := addAt curr (cc + 1) 1 (scale (1/16) e)
  ⟨Q, curr, next⟩

/-- `// quantize left lower 1x1` (cell 1): 3/16 to `nextRow[cc-1][2]` when
`cc > 0`, 5/16 to `nextRow[cc][0]`, 1/16 to `nextRow[cc][4]`, 7/16 to
`err[3]`. -/
def step1 (q : Fin 4 → Chan → Chan) (gv : Fin 6 → Chan) (cc : ℕ)
    (curr next : List ErrCell) : StepOut :=
  let Q := quantCell q gv 1 cc curr
  let e := Q.residual
  let next := if cc ≠ 0 then addAt next (cc - 1) 2 (scale (3/16) e) else next
  let next := addAt next cc 0 (scale (5/16) e)
  let next := addAt next cc 4 (scale (1/16) e)
  let curr := addAt curr cc 3 (scale (7/16) e)
  ⟨Q, curr, next⟩

/-- `// quantize right lower 1x1` (cell 3): 7/16 to `currentRow[cc+1][1]`,
3/16 to `nextRow[cc][4]`, 5/16 to `nextRow[cc][2]`, 1/16 to
`nextRow[cc+1][0]`. -/
def step3 (q : Fin 4 → Chan → Chan) (gv : Fin 6 → Chan) (cc : ℕ)
    (curr next : List ErrCell) : StepOut :=
  let Q := quantCell q gv 3 cc curr
  let e := Q.residual
  let curr := addAt curr (cc + 1) 1 (scale (7/16) e)
  let next := addAt next cc 4 (scale (3/16) e)
  let next := addAt next cc 2 (scale (5/16) e)
  let next := addAt next (cc + 1) 0 (scale (1/16) e)
  ⟨Q, curr, next⟩

/-- The whole per-tile quantization block of `groupByMask`, in source
order: cell 0, cell 4, cell 2, cell 5, cell 1, cell 3.  Returns the palette
queries in execution order together with the final buffers. -/
def tileStep (q : Fin 4 → Chan → Chan) (gv : Fin 6 → Chan) (cc : ℕ)
    (curr next : List ErrCell) : List QuantQuery × List ErrCell × List ErrCell :=
  let o0 := step0 q gv cc curr next
  let o4 := step4 q gv cc o0.curr o0.next
  let o2 := step2 q gv cc o4.curr o4.next
  let o5 := step5 q gv cc o2.curr o2.next
  let o1 := step1 q gv cc o5.curr o5.next
  let o3 := step3 q gv cc o1.curr o1.next
  ([o0.query, o4.query, o2.query, o5.query, o1.query, o3.query], o3.curr, o3.next)

/-- Total accumulated error in one buffer entry (all six cell slots). -/
def cellTotal (x : ErrCell) : Chan :=
  ∑ k : Fin 6, x k

/-- Total accumulated error across both diffusion buffers. -/
def totalErr (curr next : List ErrCell) : Chan :=
  (curr.map cellTotal).sum + (next.map cellTotal).sum

/-! ## Part-count tally (the `onTileDone` lambda in `repaint`) -/

/-- The per-tile part-count update in `repaint`'s lambda, transcribed
verbatim: for each `group` of the six, `part = mc.groupIdToPart[group]`,
`color = avgs[part]`, `partCounts[color->name][part] += 1`.  Note the
lookup `avgs[part]` — the Swatch chosen for the cell whose index equals the
part id — not `avgs[group]`. -/
def tallyTile (avgs : Fin 6 → ColorSpec) (counts : String → Fin 4 → ℕ) :
    String → Fin 4 → ℕ :=
  (List.finRange 6).foldl
    (fun cs group =>
      let part := groupIdToPart group
      let color := avgs part
      fun n p => if n = color.name ∧ p = part then cs n p + 1 else cs n p)
    counts

/-- Modelled from the spec: the part-count update the spec describes
("incremented once per cell assigned to a Swatch of that category"): each
cell increments the entry of its own chosen Swatch `avgs[group]` in its own
shape category's column. -/
def tallyTileSpec (avgs : Fin 6 → ColorSpec) (counts : String → Fin 4 → ℕ) :
    String → Fin 4 → ℕ :=
  (List.finRange 6).foldl
    (fun cs group =>
      let part := groupIdToPart group
      let color := avgs group
      fun n p => if n = color.name ∧ p = part then cs n p + 1 else cs n p)
    counts

/-! ## Diffusion-buffer geometry and the access trace of one tile -/

/-- `uint64_t nrCols = image.cols / tileWidth + 2;` — the allocated length
of both diffusion buffers. -/
def nrCols (w tw : ℕ) : ℕ := w / tw + 2

/-- The number of iterations of the column loop
`for (int c = 0, cc = 0; c < image.cols; c += tileWidth, cc++)`:
`⌈w / tw⌉`, counting the clipped last column. -/
def numTileCols (w tw : ℕ) : ℕ := (w + tw - 1) / tw

/-- Which diffusion buffer an access touches. -/
inductive RowBuf where
  | currentRow : RowBuf
  | nextRow : RowBuf
deriving DecidableEq

/-- One diffusion-buffer access: buffer, column index (as a signed integer,
so that a hypothetical `cc - 1` underflow would be visible), and whether
the access reads the entry as quantization input (`err = currentRow[cc]`)
or only receives a `+=` contribution. -/
structure BufAccess where
  buf : RowBuf
  idx : ℤ
  isInput : Bool
deriving DecidableEq

/-- Every diffusion-buffer access performed while processing the tile in
column `cc`, in source order.  The `if cc` guards of the two
`nextRow[cc-1][2] +=` statements are reproduced; all `err[...]` reads and
writes address `currentRow[cc]`. -/
def tileAccesses (cc : ℕ) : List BufAccess :=
  [⟨RowBuf.currentRow, (cc : ℤ), true⟩]                            -- err = currentRow[cc]; target cell 0
  ++ (if cc ≠ 0 then [⟨RowBuf.nextRow, (cc : ℤ) - 1, false⟩] else [])
  ++ [⟨RowBuf.currentRow, (cc : ℤ), false⟩,                        -- err[2], err[5]
      ⟨RowBuf.currentRow, (cc : ℤ), false⟩,
      ⟨RowBuf.currentRow, (cc : ℤ), true⟩,                         -- target cell 4
      ⟨RowBuf.currentRow, (cc : ℤ), false⟩,
      ⟨RowBuf.nextRow, (cc : ℤ), false⟩,
      ⟨RowBuf.currentRow, (cc : ℤ), false⟩,
      ⟨RowBuf.currentRow, (cc : ℤ) + 1, false⟩,
      ⟨RowBuf.currentRow, (cc : ℤ), true⟩,                         -- target cell 2
      ⟨RowBuf.currentRow, (cc : ℤ) + 1, false⟩,
      ⟨RowBuf.currentRow, (cc : ℤ), false⟩,
      ⟨RowBuf.currentRow, (cc : ℤ), false⟩,
      ⟨RowBuf.currentRow, (cc : ℤ) + 1, false⟩,
      ⟨RowBuf.currentRow, (cc : ℤ), true⟩,                         -- target cell 5
      ⟨RowBuf.currentRow, (cc : ℤ), false⟩,
      ⟨RowBuf.currentRow, (cc : ℤ), false⟩,
      ⟨RowBuf.currentRow, (cc : ℤ) + 1, false⟩,
      ⟨RowBuf.currentRow, (cc : ℤ) + 1, false⟩,
      ⟨RowBuf.currentRow, (cc : ℤ), true⟩]                         -- target cell 1
  ++ (if cc ≠ 0 then [⟨RowBuf.nextRow, (cc : ℤ) - 1, false⟩] else [])
  ++ [⟨RowBuf.nextRow, (cc : ℤ), false⟩,
      ⟨RowBuf.nextRow, (cc : ℤ), false⟩,
      ⟨RowBuf.currentRow, (cc : ℤ), false⟩,
      ⟨RowBuf.currentRow, (cc : ℤ), true⟩,                         -- target cell 3
      ⟨RowBuf.currentRow, (cc : ℤ) + 1, false⟩,
      ⟨RowBuf.nextRow, (cc : ℤ), false⟩,
      ⟨RowBuf.nextRow, (cc : ℤ), false⟩,
      ⟨RowBuf.nextRow, (cc : ℤ) + 1, false⟩]

/-! ## Lemmas about the nearest-match scan -/

/-- Default Swatch used only to state positional (index-based) facts. -/
def defaultSpec : ColorSpec :=
  ⟨"", "", 0, 0, 0, fun _ => 0, fun _ => ' '⟩

theorem beats_eq_true_iff (d : ℚ) (acc : Option (ColorSpec × ℚ)) :
    beats d acc = true ↔ ∀ p, acc = some p → d < p.2 := by
  cases acc <;> simp [beats]

theorem beats_eq_false_iff (d : ℚ) (acc : Option (ColorSpec × ℚ)) :
    beats d acc = false ↔ ∃ p, acc = some p ∧ p.2 ≤ d := by
  cases acc <;> simp [beats]

theorem paletteFold_eq_of_no_eligible (lum : ℤ) (c : Chan) (pid : Fin 4) :
    ∀ (pal : List ColorSpec) (acc : Option (ColorSpec × ℚ)),
    (∀ s ∈ pal, ¬ eligible pid s) →
    paletteFold lum c pid pal acc = acc := by
  intro pal
  induction pal with
  | nil => intro acc _; rfl
  | cons h t ih =>
    intro acc hno
    have hh : ¬ eligible pid h := hno h (List.mem_cons_self h t)
    have hstep : paletteStep lum c pid acc h = acc := by
      unfold paletteStep
      have hn : ¬ (h.availability pid = '+' ∧ beats (distLab lum c h) acc = true) := by
        intro hcon
        exact hh hcon.1
      simp only [if_neg hn]
    have : paletteFold lum c pid (h :: t) acc = paletteFold lum c pid t (paletteStep lum c pid acc h) := rfl
    rw [this, hstep]
    exact ih acc (fun s hs => hno s (List.mem_cons_of_mem h hs))

theorem paletteFold_some_of_some (lum : ℤ) (c : Chan) (pid : Fin 4) :
    ∀ (pal : List ColorSpec) (p0 : ColorSpec × ℚ),
    ∃ p, paletteFold lum c pid pal (some p0) = some p := by
  intro pal
  induction pal with
  | nil => intro p0; exact ⟨p0, rfl⟩
  | cons h t ih =>
    intro p0
    show ∃ p, paletteFold lum c pid t (paletteStep lum c pid (some p0) h) = some p
    unfold paletteStep
    by_cases hc : h.availability pid = '+' ∧ beats (distLab lum c h) (some p0) = true
    · simp only [if_pos hc]; exact ih _
    · simp only [if_neg hc]; exact ih p0

theorem paletteFold_some_of_eligible (lum : ℤ) (c : Chan) (pid : Fin 4) :
    ∀ (pal : List ColorSpec) (acc : Option (ColorSpec × ℚ)),
    (∃ s ∈ pal, eligible pid s) →
    ∃ p, paletteFold lum c pid pal acc = some p := by
  intro pal
  induction pal with
  | nil => intro acc h; simp at h
  | cons h t ih =>
    intro acc hex
    show ∃ p, paletteFold lum c pid t (paletteStep lum c pid acc h) = some p
    by_cases hc : h.availability pid = '+' ∧ beats (distLab lum c h) acc = true
    · rw [paletteStep, if_pos hc]
      exact paletteFold_some_of_some lum c pid t _
    · rw [paletteStep, if_neg hc]
      by_cases he : eligible pid h
      · -- head eligible but not selected: the accumulator must already hold a pair
        have hb : beats (distLab lum c h) acc = false := by
          cases hbv : beats (distLab lum c h) acc with
          | false => rfl
          | true => exact absurd ⟨he, hbv⟩ hc
        rcases (beats_eq_false_iff _ _).mp hb with ⟨p0, hp0, _⟩
        rw [hp0]
        exact paletteFold_some_of_some lum c pid t p0
      · rcases hex with ⟨s, hs, hse⟩
        rcases List.mem_cons.mp hs with rfl | hst
        · exact absurd hse he
        · exact ih acc ⟨s, hst, hse⟩

theorem paletteFold_char (lum : ℤ) (c : Chan) (pid : Fin 4) :
    ∀ (pal : List ColorSpec) (acc : Option (ColorSpec × ℚ)),
    (∀ p0, acc = some p0 → p0.2 = distLab lum c p0.1 ∧ eligible pid p0.1) →
    ∀ p, paletteFold lum c pid pal acc = some p →
      (p.2 = distLab lum c p.1 ∧ eligible pid p.1) ∧
      (acc = some p ∨ p.1 ∈ pal) ∧
      (∀ s ∈ pal, eligible pid s → p.2 ≤ distLab lum c s) ∧
      (∀ p0, acc = some p0 → p.2 ≤ p0.2) := by
  intro pal
  induction pal with
  | nil =>
    intro acc hacc p hp
    have hap : acc = some p := hp
    refine ⟨hacc p hap, Or.inl hap, ?_, ?_⟩
    · intro s hs; simp at hs
    · intro p0 hp0
      rw [hap] at hp0
      cases hp0
      exact le_refl _
  | cons h t ih =>
    intro acc hacc p hp
    have hfold : paletteFold lum c pid t (paletteStep lum c pid acc h) = some p := hp
    by_cases hc : h.availability pid = '+' ∧ beats (distLab lum c h) acc = true
    · have hstep : paletteStep lum c pid acc h = some (h, distLab lum c h) := by
        unfold paletteStep
        simp only [if_pos hc]
      rw [hstep] at hfold
      have hacc' : ∀ p0, (some (h, distLab lum c h) : Option (ColorSpec × ℚ)) = some p0 →
          p0.2 = distLab lum c p0.1 ∧ eligible pid p0.1 := by
        intro p0 hp0
        cases hp0
        exact ⟨rfl, hc.1⟩
      rcases ih (some (h, distLab lum c h)) hacc' p hfold with ⟨hcons, hmem, hmin, hle⟩
      have hled : p.2 ≤ distLab lum c h := hle (h, distLab lum c h) rfl
      refine ⟨hcons, ?_, ?_, ?_⟩
      · rcases hmem with hmem | hmem
        · cases hmem
          exact Or.inr (List.mem_cons_self h t)
        · exact Or.inr (List.mem_cons_of_mem h hmem)
      · intro s hs hse
        rcases List.mem_cons.mp hs with rfl | hst
        · exact hled
        · exact hmin s hst hse
      · intro p0 hp0
        have hlt : distLab lum c h < p0.2 := ((beats_eq_true_iff _ _).mp hc.2) p0 hp0
        exact le_of_lt (lt_of_le_of_lt hled hlt)
    · have hstep : paletteStep lum c pid acc h = acc := by
        unfold paletteStep
        simp only [if_neg hc]
      rw [hstep] at hfold
      rcases ih acc hacc p hfold with ⟨hcons, hmem, hmin, hle⟩
      refine ⟨hcons, ?_, ?_, hle⟩
      · rcases hmem with hmem | hmem
        · exact Or.inl hmem
        · exact Or.inr (List.mem_cons_of_mem h hmem)
      · intro s hs hse
        rcases List.mem_cons.mp hs with rfl | hst
        · -- eligible head not selected, so the accumulator held a no-worse pair
          have hb : beats (distLab lum c s) acc = false := by
            cases hbv : beats (distLab lum c s) acc with
            | false => rfl
            | true => exact absurd ⟨hse, hbv⟩ hc
          rcases (beats_eq_false_iff _ _).mp hb with ⟨p0, hp0, hp0le⟩
          exact le_trans (hle p0 hp0) hp0le
        · exact hmin s hst hse

theorem paletteFold_first (lum : ℤ) (c : Chan) (pid : Fin 4) :
    ∀ (pal : List ColorSpec) (acc : Option (ColorSpec × ℚ)),
    ∀ p, paletteFold lum c pid pal acc = some p →
      (acc = some p) ∨
      (∃ i, i < pal.length ∧ pal.getD i defaultSpec = p.1 ∧ p.2 = distLab lum c p.1 ∧
        eligible pid p.1 ∧ (∀ p0, acc = some p0 → p.2 < p0.2) ∧
        ∀ j, j < i → eligible pid (pal.getD j defaultSpec) →
          p.2 < distLab lum c (pal.getD j defaultSpec)) := by
  intro pal
  induction pal with
  | nil =>
    intro acc p hp
    exact Or.inl hp
  | cons h t ih =>
    intro acc p hp
    have hfold : paletteFold lum c pid t (paletteStep lum c pid acc h) = some p := hp
    by_cases hc : h.availability pid = '+' ∧ beats (distLab lum c h) acc = true
    · have hstep : paletteStep lum c pid acc h = some (h, distLab lum c h) := by
        unfold paletteStep
        simp only [if_pos hc]
      rw [hstep] at hfold
      have hbeat : ∀ p0, acc = some p0 → distLab lum c h < p0.2 :=
        (beats_eq_true_iff _ _).mp hc.2
      rcases ih (some (h, distLab lum c h)) p hfold with hleft | ⟨i, hi, hgi, hdist, helig, hacc', hbefore⟩
      · -- the head's candidate survived the rest of the scan
        cases hleft
        refine Or.inr ⟨0, ?_, ?_, rfl, hc.1, ?_, ?_⟩
        · simp
        · simp
        · intro p0 hp0
          exact hbeat p0 hp0
        · intro j hj
          exact absurd hj (Nat.not_lt_zero j)
      · -- a later element replaced the head's candidate
        have hlth : p.2 < distLab lum c h := hacc' (h, distLab lum c h) rfl
        refine Or.inr ⟨i + 1, ?_, ?_, hdist, helig, ?_, ?_⟩
        · simpa using Nat.succ_lt_succ hi
        · simpa using hgi
        · intro p0 hp0
          exact lt_trans hlth (hbeat p0 hp0)
        · intro j hj hje
          cases j with
          | zero =>
            simp only [List.getD_cons_zero] at hje ⊢
            exact hlth
          | succ j' =>
            simp only [List.getD_cons_succ] at hje ⊢
            exact hbefore j' (Nat.lt_of_succ_lt_succ hj) hje
    · have hstep : paletteStep lum c pid acc h = acc := by
        unfold paletteStep
        simp only [if_neg hc]
      rw [hstep] at hfold
      rcases ih acc p hfold with hleft | ⟨i, hi, hgi, hdist, helig, hacc', hbefore⟩
      · exact Or.inl hleft
      · refine Or.inr ⟨i + 1, ?_, ?_, hdist, helig, hacc', ?_⟩
        · simpa using Nat.succ_lt_succ hi
        · simpa using hgi
        intro j hj hje
        cases j with
        | zero =>
          simp only [List.getD_cons_zero] at hje ⊢
          -- the head is eligible but was not selected: the accumulator held
          -- a pair at distance at most the head's, and the result beats it
          have hb : beats (distLab lum c h) acc = false := by
            cases hbv : beats (distLab lum c h) acc with
            | false => rfl
            | true => exact absurd ⟨hje, hbv⟩ hc
          rcases (beats_eq_false_iff _ _).mp hb with ⟨p0, hp0, hp0le⟩
          exact lt_of_lt_of_le (hacc' p0 hp0) hp0le
        | succ j' =>
          simp only [List.getD_cons_succ] at hje ⊢
          exact hbefore j' (Nat.lt_of_succ_lt_succ hj) hje

/-! ## Lemmas about the diffusion buffers -/

theorem addAt_length (buf : List ErrCell) (i : ℕ) (k : Fin 6) (v : Chan) :
    (addAt buf i k v).length = buf.length := by
  unfold addAt
  exact List.length_set buf i _

theorem getD_set_self {α : Type} (d : α) :
    ∀ (l : List α) (i : ℕ) (a : α), i < l.length → (l.set i a).getD i d = a := by
  intro l
  induction l with
  | nil => intro i a h; simp at h
  | cons x t ih =>
    intro i a h
    cases i with
    | zero => rfl
    | succ i' => exact ih i' a (Nat.lt_of_succ_lt_succ h)

theorem getD_set_ne {α : Type} (d : α) :
    ∀ (l : List α) (i j : ℕ) (a : α), i ≠ j → (l.set i a).getD j d = l.getD j d := by
  intro l
  induction l with
  | nil => intro i j a _; simp
  | cons x t ih =>
    intro i j a hij
    cases i with
    | zero =>
      cases j with
      | zero => exact absurd rfl hij
      | succ j' => rfl
    | succ i' =>
      cases j with
      | zero => rfl
      | succ j' => exact ih i' j' a (fun he => hij (congrArg Nat.succ he))

theorem set_of_length_le {α : Type} :
    ∀ (l : List α) (i : ℕ) (a : α), l.length ≤ i → l.set i a = l := by
  intro l
  induction l with
  | nil => intro i a _; simp
  | cons x t ih =>
    intro i a h
    cases i with
    | zero => simp at h
    | succ i' =>
      show x :: t.set i' a = x :: t
      rw [ih i' a (Nat.le_of_succ_le_succ h)]

theorem getCell_addAt_self (buf : List ErrCell) (i : ℕ) (k : Fin 6) (v : Chan)
    (h : i < buf.length) :
    getCell (addAt buf i k v) i k = getCell buf i k + v := by
  unfold addAt getCell
  rw [getD_set_self _ _ _ _ h]
  simp [Function.update_same, getCell]

theorem getCell_addAt_ne (buf : List ErrCell) (i : ℕ) (k : Fin 6) (v : Chan)
    (j : ℕ) (m : Fin 6) (h : i ≠ j ∨ k ≠ m) :
    getCell (addAt buf i k v) j m = getCell buf j m := by
  unfold addAt getCell
  rcases h with h | h
  · rw [getD_set_ne _ _ _ _ _ h]
  · by_cases hij : i = j
    · subst hij
      by_cases hlen : i < buf.length
      · rw [getD_set_self _ _ _ _ hlen]
        simp [Function.update_noteq (Ne.symm h), getCell]
      · rw [set_of_length_le _ _ _ (Nat.le_of_not_lt hlen)]
    · rw [getD_set_ne _ _ _ _ _ hij]

theorem cellTotal_update (x : ErrCell) (k : Fin 6) (v : Chan) :
    cellTotal (Function.update x k (x k + v)) = cellTotal x + v := by
  unfold cellTotal
  rw [Finset.sum_update_of_mem (Finset.mem_univ k),
      Finset.sum_eq_add_sum_diff_singleton (Finset.mem_univ k) x]
  abel

theorem map_cellTotal_sum_set :
    ∀ (l : List ErrCell) (i : ℕ) (a : ErrCell), i < l.length →
    ((l.set i a).map cellTotal).sum
      = (l.map cellTotal).sum + cellTotal a - cellTotal (l.getD i (fun _ _ => 0)) := by
  intro l
  induction l with
  | nil => intro i a h; simp at h
  | cons x t ih =>
    intro i a h
    cases i with
    | zero =>
      show (cellTotal a + (t.map cellTotal).sum)
        = (cellTotal x + (t.map cellTotal).sum) + cellTotal a - cellTotal x
      abel
    | succ i' =>
      show (cellTotal x + ((t.set i' a).map cellTotal).sum)
        = (cellTotal x + (t.map cellTotal).sum) + cellTotal a - cellTotal (t.getD i' (fun _ _ => 0))
      rw [ih i' a (Nat.lt_of_succ_lt_succ h)]
      abel

theorem totalErr_addAt_curr (curr next : List ErrCell) (i : ℕ) (k : Fin 6) (v : Chan)
    (h : i < curr.length) :
    totalErr (addAt curr i k v) next = totalErr curr next + v := by
  unfold totalErr addAt
  rw [map_cellTotal_sum_set _ _ _ h]
  have : cellTotal (Function.update (getCell curr i) k (getCell curr i k + v))
      = cellTotal (getCell curr i) + v := cellTotal_update _ _ _
  rw [this]
  unfold getCell
  abel

theorem totalErr_addAt_next (curr next : List ErrCell) (i : ℕ) (k : Fin 6) (v : Chan)
    (h : i < next.length) :
    totalErr curr (addAt next i k v) = totalErr curr next + v := by
  unfold totalErr addAt
  rw [map_cellTotal_sum_set _ _ _ h]
  have : cellTotal (Function.update (getCell next i) k (getCell next i k + v))
      = cellTotal (getCell next i) + v := cellTotal_update _ _ _
  rw [this]
  unfold getCell
  abel

theorem scale_add_scale (a b : ℚ) (v : Chan) :
    scale a v + scale b v = scale (a + b) v := by
  funext i
  show a * v i + b * v i = (a + b) * v i
  ring

theorem scale_one (v : Chan) : scale 1 v = v := by
  funext i
  show 1 * v i = v i
  ring

theorem step4_totalErr (q : Fin 4 → Chan → Chan) (gv : Fin 6 → Chan) (cc : ℕ)
    (curr next : List ErrCell) (h1 : cc + 1 < curr.length) (h2 : cc < next.length) :
    totalErr (step4 q gv cc curr next).curr (step4 q gv cc curr next).next
      = totalErr curr next + (step4 q gv cc curr next).query.residual := by
  have hcc : cc < curr.length := Nat.lt_of_succ_lt h1
  simp only [step4]
  rw [totalErr_addAt_curr _ _ _ _ _ (by rw [addAt_length, addAt_length]; exact h1)]
  rw [totalErr_addAt_curr _ _ _ _ _ (by rw [addAt_length]; exact hcc)]
  rw [totalErr_addAt_next _ _ _ _ _ h2]
  rw [totalErr_addAt_curr _ _ _ _ _ hcc]
  funext i
  simp only [Pi.add_apply, scale]
  ring

theorem step0_totalErr (q : Fin 4 → Chan → Chan) (gv : Fin 6 → Chan) (cc : ℕ)
    (curr next : List ErrCell) (h0 : cc ≠ 0) (h1 : cc < curr.length)
    (h2 : cc - 1 < next.length) :
    totalErr (step0 q gv cc curr next).curr (step0 q gv cc curr next).next
      = totalErr curr next + scale (11/16) (step0 q gv cc curr next).query.residual := by
  simp only [step0]
  rw [if_pos h0]
  rw [totalErr_addAt_curr _ _ _ _ _ (by rw [addAt_length]; exact h1)]
  rw [totalErr_addAt_curr _ _ _ _ _ h1]
  rw [totalErr_addAt_next _ _ _ _ _ h2]
  funext i
  simp only [Pi.add_apply, scale]
  ring

theorem step2_totalErr (q : Fin 4 → Chan → Chan) (gv : Fin 6 → Chan) (cc : ℕ)
    (curr next : List ErrCell) (h1 : cc + 1 < curr.length) :
    totalErr (step2 q gv cc curr next).curr (step2 q gv cc curr next).next
      = totalErr curr next + (step2 q gv cc curr next).query.residual := by
  have hcc : cc < curr.length := Nat.lt_of_succ_lt h1
  simp only [step2]
  rw [totalErr_addAt_curr _ _ _ _ _
        (by rw [addAt_length, addAt_length, addAt_length]; exact h1)]
  rw [totalErr_addAt_curr _ _ _ _ _ (by rw [addAt_length, addAt_length]; exact hcc)]
  rw [totalErr_addAt_curr _ _ _ _ _ (by rw [addAt_length]; exact hcc)]
  rw [totalErr_addAt_curr _ _ _ _ _ h1]
  funext i
  simp only [Pi.add_apply, scale]
  ring

theorem step5_totalErr (q : Fin 4 → Chan → Chan) (gv : Fin 6 → Chan) (cc : ℕ)
    (curr next : List ErrCell) (h1 : cc + 1 < curr.length) :
    totalErr (step5 q gv cc curr next).curr (step5 q gv cc curr next).next
      = totalErr curr next + (step5 q gv cc curr next).query.residual := by
  have hcc : cc < curr.length := Nat.lt_of_succ_lt h1
  simp only [step5]
  rw [totalErr_addAt_curr _ _ _ _ _
        (by rw [addAt_length, addAt_length, addAt_length]; exact h1)]
  rw [totalErr_addAt_curr _ _ _ _ _ (by rw [addAt_length, addAt_length]; exact h1)]
  rw [totalErr_addAt_curr _ _ _ _ _ (by rw [addAt_length]; exact hcc)]
  rw [totalErr_addAt_curr _ _ _ _ _ hcc]
  funext i
  simp only [Pi.add_apply, scale]
  ring

theorem step1_totalErr (q : Fin 4 → Chan → Chan) (gv : Fin 6 → Chan) (cc : ℕ)
    (curr next : List ErrCell) (h0 : cc ≠ 0) (h1 : cc < curr.length)
    (h2 : cc < next.length) :
    totalErr (step1 q gv cc curr next).curr (step1 q gv cc curr next).next
      = totalErr curr next + (step1 q gv cc curr next).query.residual := by
  have h3 : cc - 1 < next.length := Nat.lt_of_le_of_lt (Nat.sub_le cc 1) h2
  simp only [step1]
  rw [if_pos h0]
  rw [totalErr_addAt_curr _ _ _ _ _ h1]
  rw [totalErr_addAt_next _ _ _ _ _ (by rw [addAt_length, addAt_length]; exact h2)]
  rw [totalErr_addAt_next _ _ _ _ _ (by rw [addAt_length]; exact h2)]
  rw [totalErr_addAt_next _ _ _ _ _ h3]
  funext i
  simp only [Pi.add_apply, scale]
  ring

theorem step3_totalErr (q : Fin 4 → Chan → Chan) (gv : Fin 6 → Chan) (cc : ℕ)
    (curr next : List ErrCell) (h1 : cc + 1 < curr.length) (h2 : cc + 1 < next.length) :
    totalErr (step3 q gv cc curr next).curr (step3 q gv cc curr next).next
      = totalErr curr next + (step3 q gv cc curr next).query.residual := by
  have hcn : cc < next.length := Nat.lt_of_succ_lt h2
  simp only [step3]
  rw [totalErr_addAt_curr _ _ _ _ _ h1]
  rw [totalErr_addAt_next _ _ _ _ _ (by rw [addAt_length, addAt_length]; exact h2)]
  rw [totalErr_addAt_next _ _ _ _ _ (by rw [addAt_length]; exact hcn)]
  rw [totalErr_addAt_next _ _ _ _ _ hcn]
  funext i
  simp only [Pi.add_apply, scale]
  ring

/-! ## Concrete instances used by witnesses and counterexamples -/

/-- A catalog answer that always returns Lab black. -/
def cexQ : Fin 4 → Chan → Chan := fun _ _ _ => 0

/-- Tile averages: cell 0 has value 16 on every channel, the rest are 0. -/
def cexGV : Fin 6 → Chan := fun c _ => if c = 0 then 16 else 0

/-- An all-zero diffusion-buffer entry. -/
def cexCell : ErrCell := fun _ _ => 0

/-- A three-column diffusion buffer holding no accumulated error. -/
def cexBuf : List ErrCell := [cexCell, cexCell, cexCell]

/-- C1: the claim says every quantization step's diffusion coefficients sum
to 1.  This fails at the cell-0 step: its `err[4] += error*(7/16.)` line is
commented out, so even at an interior column (no boundary drop) only
3/16 + 5/16 + 3/16 = 11/16 of the cell-0 residual is injected into the
buffers. -/
theorem c1_counterexample :
    totalErr (step0 cexQ cexGV 1 cexBuf cexBuf).curr (step0 cexQ cexGV 1 cexBuf cexBuf).next
      ≠ totalErr cexBuf cexBuf + (step0 cexQ cexGV 1 cexBuf cexBuf).query.residual := by
  intro h
  rw [step0_totalErr cexQ cexGV 1 cexBuf cexBuf (by decide) (by decide) (by decide)] at h
  have h2 : scale (11/16) (step0 cexQ cexGV 1 cexBuf cexBuf).query.residual
      = (step0 cexQ cexGV 1 cexBuf cexBuf).query.residual := add_left_cancel h
  have h3 := congrFun h2 0
  have he : (step0 cexQ cexGV 1 cexBuf cexBuf).query.residual 0 = 16 := by
    simp [step0, quantCell, cexQ, cexGV, cexBuf, cexCell, getCell, Pi.sub_apply, Pi.add_apply]
  rw [scale, he] at h3
  norm_num at h3

/-- C1 (amended): at interior columns the residual of each of the steps for
cells 4, 2, 5, 1 and 3 is injected in full (coefficients sum to 16/16),
while the cell-0 step injects only `11/16` of its residual — the `7/16`
coefficient is commented out in the source, so 5/16 of every cell-0
residual is dropped even away from column boundaries. -/
theorem c1_step_residual_injection (q : Fin 4 → Chan → Chan) (gv : Fin 6 → Chan)
    (cc : ℕ) (curr next : List ErrCell)
    (h0 : cc ≠ 0) (hc : cc + 1 < curr.length) (hn : cc + 1 < next.length) :
    (totalErr (step0 q gv cc curr next).curr (step0 q gv cc curr next).next
        = totalErr curr next + scale (11/16) (step0 q gv cc curr next).query.residual)
    ∧ (totalErr (step4 q gv cc curr next).curr (step4 q gv cc curr next).next
        = totalErr curr next + (step4 q gv cc curr next).query.residual)
    ∧ (totalErr (step2 q gv cc curr next).curr (step2 q gv cc curr next).next
        = totalErr curr next + (step2 q gv cc curr next).query.residual)
    ∧ (totalErr (step5 q gv cc curr next).curr (step5 q gv cc curr next).next
        = totalErr curr next + (step5 q gv cc curr next).query.residual)
    ∧ (totalErr (step1 q gv cc curr next).curr (step1 q gv cc curr next).next
        = totalErr curr next + (step1 q gv cc curr next).query.residual)
    ∧ (totalErr (step3 q gv cc curr next).curr (step3 q gv cc curr next).next
        = totalErr curr next + (step3 q gv cc curr next).query.residual) := by
  have hcc : cc < curr.length := by omega
  have hcn : cc < next.length := by omega
  have hm : cc - 1 < next.length := by omega
  exact ⟨step0_totalErr q gv cc curr next h0 hcc hm,
         step4_totalErr q gv cc curr next hc hcn,
         step2_totalErr q gv cc curr next hc,
         step5_totalErr q gv cc curr next hc,
         step1_totalErr q gv cc curr next h0 hcc hcn,
         step3_totalErr q gv cc curr next hc hn⟩

/-- C1 witness: the amended per-step injection totals at a concrete
interior column of a three-column buffer. -/
theorem c1_step_residual_injection_witness :
    ((1 : ℕ) ≠ 0 ∧ 1 + 1 < cexBuf.length ∧ 1 + 1 < cexBuf.length) ∧
    ((totalErr (step0 cexQ cexGV 1 cexBuf cexBuf).curr (step0 cexQ cexGV 1 cexBuf cexBuf).next
        = totalErr cexBuf cexBuf + scale (11/16) (step0 cexQ cexGV 1 cexBuf cexBuf).query.residual)
    ∧ (totalErr (step4 cexQ cexGV 1 cexBuf cexBuf).curr (step4 cexQ cexGV 1 cexBuf cexBuf).next
        = totalErr cexBuf cexBuf + (step4 cexQ cexGV 1 cexBuf cexBuf).query.residual)
    ∧ (totalErr (step2 cexQ cexGV 1 cexBuf cexBuf).curr (step2 cexQ cexGV 1 cexBuf cexBuf).next
        = totalErr cexBuf cexBuf + (step2 cexQ cexGV 1 cexBuf cexBuf).query.residual)
    ∧ (totalErr (step5 cexQ cexGV 1 cexBuf cexBuf).curr (step5 cexQ cexGV 1 cexBuf cexBuf).next
        = totalErr cexBuf cexBuf + (step5 cexQ cexGV 1 cexBuf cexBuf).query.residual)
    ∧ (totalErr (step1 cexQ cexGV 1 cexBuf cexBuf).curr (step1 cexQ cexGV 1 cexBuf cexBuf).next
        = totalErr cexBuf cexBuf + (step1 cexQ cexGV 1 cexBuf cexBuf).query.residual)
    ∧ (totalErr (step3 cexQ cexGV 1 cexBuf cexBuf).curr (step3 cexQ cexGV 1 cexBuf cexBuf).next
        = totalErr cexBuf cexBuf + (step3 cexQ cexGV 1 cexBuf cexBuf).query.residual)) :=
  ⟨⟨by decide, by decide, by decide⟩,
   c1_step_residual_injection cexQ cexGV 1 cexBuf cexBuf (by decide) (by decide) (by decide)⟩

/-- C3: the claim states the quantization order is cell 4, 2, 5, 0, 3.
The source performs six quantization calls per tile, starting with cell 0:
the order is 0, 4, 2, 5, 1, 3, so the claimed order is wrong already at its
first step (and it omits cell 1 entirely). -/
theorem c3_counterexample :
    (tileStep cexQ cexGV 0 cexBuf cexBuf).1.map QuantQuery.cell
      ≠ [4, 2, 5, 0, 3] := by
  intro h
  have h6 : ((tileStep cexQ cexGV 0 cexBuf cexBuf).1.map QuantQuery.cell).length = 5 := by
    rw [h]
    rfl
  simp [tileStep] at h6

/-- C3 (amended): for every input, the per-tile quantization proceeds in
the fixed order cell 0, cell 4, cell 2, cell 5, cell 1, cell 3, and every
step quantizes with the part id of its cell and with target = that cell's
average plus the error accumulated for that cell at that point. -/
theorem c3_quantization_order (q : Fin 4 → Chan → Chan) (gv : Fin 6 → Chan)
    (cc : ℕ) (curr next : List ErrCell) :
    ((tileStep q gv cc curr next).1.map QuantQuery.cell = [0, 4, 2, 5, 1, 3])
    ∧ ∀ Q ∈ (tileStep q gv cc curr next).1,
        Q.part = groupIdToPart Q.cell ∧ Q.target = gv Q.cell + Q.errIn := by
  constructor
  · simp [tileStep, step0, step4, step2, step5, step1, step3, quantCell]
  · intro Q hQ
    simp only [tileStep, List.mem_cons, List.not_mem_nil, or_false] at hQ
    rcases hQ with rfl | rfl | rfl | rfl | rfl | rfl <;>
      simp [step0, step4, step2, step5, step1, step3, quantCell]

/-- C7: the cell-4 (large circle) residual is diffused with exactly the
weights 3/16 to this tile's pending error for cell 2 (`err[2]`), 4/16 to
`nextRow[cc][4]`, 4/16 to this tile's pending error for cell 5 (`err[5]`),
5/16 to `currentRow[cc+1][4]`, and nowhere else. -/
theorem c7_cell4_weights (q : Fin 4 → Chan → Chan) (gv : Fin 6 → Chan)
    (cc : ℕ) (curr next : List ErrCell)
    (h1 : cc + 1 < curr.length) (h2 : cc < next.length) :
    (getCell (step4 q gv cc curr next).curr cc 2
        = getCell curr cc 2 + scale (3/16) (step4 q gv cc curr next).query.residual)
    ∧ (getCell (step4 q gv cc curr next).next cc 4
        = getCell next cc 4 + scale (4/16) (step4 q gv cc curr next).query.residual)
    ∧ (getCell (step4 q gv cc curr next).curr cc 5
        = getCell curr cc 5 + scale (4/16) (step4 q gv cc curr next).query.residual)
    ∧ (getCell (step4 q gv cc curr next).curr (cc + 1) 4
        = getCell curr (cc + 1) 4 + scale (5/16) (step4 q gv cc curr next).query.residual)
    ∧ (∀ (j : ℕ) (m : Fin 6), ¬ (j = cc ∧ (m = 2 ∨ m = 5)) → ¬ (j = cc + 1 ∧ m = 4) →
        getCell (step4 q gv cc curr next).curr j m = getCell curr j m)
    ∧ (∀ (j : ℕ) (m : Fin 6), ¬ (j = cc ∧ m = 4) →
        getCell (step4 q gv cc curr next).next j m = getCell next j m) := by
  have hcc : cc < curr.length := Nat.lt_of_succ_lt h1
  simp only [step4]
  refine ⟨?_, ?_, ?_, ?_, ?_, ?_⟩
  · rw [getCell_addAt_ne _ _ _ _ _ _ (Or.inl (by omega))]
    rw [getCell_addAt_ne _ _ _ _ _ _ (Or.inr (by decide))]
    rw [getCell_addAt_self _ _ _ _ hcc]
  · rw [getCell_addAt_self _ _ _ _ h2]
  · rw [getCell_addAt_ne _ _ _ _ _ _ (Or.inl (by omega))]
    rw [getCell_addAt_self _ _ _ _ (by rw [addAt_length]; exact hcc)]
    rw [getCell_addAt_ne _ _ _ _ _ _ (Or.inr (by decide))]
  · rw [getCell_addAt_self _ _ _ _ (by rw [addAt_length, addAt_length]; exact h1)]
    rw [getCell_addAt_ne _ _ _ _ _ _ (Or.inl (by omega))]
    rw [getCell_addAt_ne _ _ _ _ _ _ (Or.inl (by omega))]
  · intro j m hm1 hm2
    have o3 : cc + 1 ≠ j ∨ (4 : Fin 6) ≠ m := by tauto
    have o2 : cc ≠ j ∨ (5 : Fin 6) ≠ m := by tauto
    have o1 : cc ≠ j ∨ (2 : Fin 6) ≠ m := by tauto
    rw [getCell_addAt_ne _ _ _ _ _ _ o3, getCell_addAt_ne _ _ _ _ _ _ o2,
        getCell_addAt_ne _ _ _ _ _ _ o1]
  · intro j m hm
    have o : cc ≠ j ∨ (4 : Fin 6) ≠ m := by tauto
    rw [getCell_addAt_ne _ _ _ _ _ _ o]

/-- C7 witness: the cell-4 weights at a concrete column of a three-column
buffer. -/
theorem c7_cell4_weights_witness :
    (1 + 1 < cexBuf.length ∧ 1 < cexBuf.length) ∧
    ((getCell (step4 cexQ cexGV 1 cexBuf cexBuf).curr 1 2
        = getCell cexBuf 1 2 + scale (3/16) (step4 cexQ cexGV 1 cexBuf cexBuf).query.residual)
    ∧ (getCell (step4 cexQ cexGV 1 cexBuf cexBuf).next 1 4
        = getCell cexBuf 1 4 + scale (4/16) (step4 cexQ cexGV 1 cexBuf cexBuf).query.residual)
    ∧ (getCell (step4 cexQ cexGV 1 cexBuf cexBuf).curr 1 5
        = getCell cexBuf 1 5 + scale (4/16) (step4 cexQ cexGV 1 cexBuf cexBuf).query.residual)
    ∧ (getCell (step4 cexQ cexGV 1 cexBuf cexBuf).curr (1 + 1) 4
        = getCell cexBuf (1 + 1) 4 + scale (5/16) (step4 cexQ cexGV 1 cexBuf cexBuf).query.residual)
    ∧ (∀ (j : ℕ) (m : Fin 6), ¬ (j = 1 ∧ (m = 2 ∨ m = 5)) → ¬ (j = 1 + 1 ∧ m = 4) →
        getCell (step4 cexQ cexGV 1 cexBuf cexBuf).curr j m = getCell cexBuf j m)
    ∧ (∀ (j : ℕ) (m : Fin 6), ¬ (j = 1 ∧ m = 4) →
        getCell (step4 cexQ cexGV 1 cexBuf cexBuf).next j m = getCell cexBuf j m)) :=
  ⟨⟨by decide, by decide⟩,
   c7_cell4_weights cexQ cexGV 1 cexBuf cexBuf (by decide) (by decide)⟩

/-- A Swatch available for every part, at Lab black. -/
def swA : ColorSpec := ⟨"1", "A", 10, 20, 30, fun _ => 0, fun _ => '+'⟩

/-- A second Swatch with the same Lab color as `swA` (an exact distance
tie) but a different name, also available everywhere. -/
def swB : ColorSpec := ⟨"2", "B", 10, 20, 30, fun _ => 0, fun _ => '+'⟩

/-- A Swatch available for no part at all. -/
def swNone : ColorSpec := ⟨"3", "C", 0, 0, 0, fun _ => 0, fun _ => '-'⟩

/-- C4: whenever some Swatch is eligible for the requested shape category,
`getSpecFromPalette` returns an eligible Swatch of the catalog and no
eligible Swatch is strictly closer in weighted Lab distance; ineligible
Swatches are excluded outright. -/
theorem c4_nearest_match_minimal (lum : ℤ) (pal : List ColorSpec) (c : Chan)
    (pid : Fin 4) (h : ∃ s ∈ pal, eligible pid s) :
    ∃ m, getSpecFromPalette lum pal c pid = some m ∧ m ∈ pal ∧ eligible pid m ∧
      ∀ s ∈ pal, eligible pid s → distLab lum c m ≤ distLab lum c s := by
  rcases paletteFold_some_of_eligible lum c pid pal none h with ⟨p, hp⟩
  rcases paletteFold_char lum c pid pal none (by intro p0 h0; simp at h0) p hp with
    ⟨⟨hdist, helig⟩, hmem, hmin, _⟩
  refine ⟨p.1, ?_, ?_, helig, ?_⟩
  · unfold getSpecFromPalette
    rw [hp]
    rfl
  · rcases hmem with h0 | h0
    · simp at h0
    · exact h0
  · intro s hs hse
    have hle := hmin s hs hse
    rw [hdist] at hle
    exact hle

/-- C4 witness: a singleton catalog with an eligible Swatch. -/
theorem c4_witness :
    (∃ s ∈ [swA], eligible 1 s) ∧
    (∃ m, getSpecFromPalette 500 [swA] (fun _ => 0) 1 = some m ∧ m ∈ [swA] ∧
      eligible 1 m ∧
      ∀ s ∈ [swA], eligible 1 s →
        distLab 500 (fun _ => 0) m ≤ distLab 500 (fun _ => 0) s) :=
  ⟨by decide, c4_nearest_match_minimal 500 [swA] (fun _ => 0) 1 (by decide)⟩

/-- C5: when no Swatch is eligible for the requested shape category the
scan keeps `minSpec == nullptr` and the function hits
`assert(minSpec != nullptr)` — modelled as `none`; it never returns a
fallback Swatch. -/
theorem c5_no_eligible_fatal (lum : ℤ) (pal : List ColorSpec) (c : Chan)
    (pid : Fin 4) (h : ∀ s ∈ pal, ¬ eligible pid s) :
    getSpecFromPalette lum pal c pid = none := by
  unfold getSpecFromPalette
  rw [paletteFold_eq_of_no_eligible lum c pid pal none h]
  rfl

/-- C5 witness: a catalog whose only Swatch is available for no part. -/
theorem c5_witness :
    (∀ s ∈ [swNone], ¬ eligible 0 s) ∧
    getSpecFromPalette 500 [swNone] (fun _ => 0) 0 = none :=
  ⟨by decide, c5_no_eligible_fatal 500 [swNone] (fun _ => 0) 0 (by decide)⟩

/-- C10: the returned Swatch is an eligible minimizer and, because a
candidate replaces the running best only on strictly smaller distance, it
is the earliest such minimizer in catalog order: every eligible Swatch at
an earlier index is strictly farther.  The embedding makes the result a
function of (catalog, target, category, weight), so determinism is
inherent. -/
theorem c10_tie_break_first (lum : ℤ) (pal : List ColorSpec) (c : Chan)
    (pid : Fin 4) (m : ColorSpec)
    (h : getSpecFromPalette lum pal c pid = some m) :
    eligible pid m ∧
    (∀ s ∈ pal, eligible pid s → distLab lum c m ≤ distLab lum c s) ∧
    ∃ i, i < pal.length ∧ pal.getD i defaultSpec = m ∧
      ∀ j, j < i → eligible pid (pal.getD j defaultSpec) →
        distLab lum c m < distLab lum c (pal.getD j defaultSpec) := by
  unfold getSpecFromPalette at h
  rcases Option.map_eq_some'.mp h with ⟨p, hp, hpm⟩
  rcases paletteFold_char lum c pid pal none (by intro p0 h0; simp at h0) p hp with
    ⟨⟨hdist, helig⟩, _, hmin, _⟩
  rcases paletteFold_first lum c pid pal none p hp with h0 | ⟨i, hi, hgi, hdist2, _, _, hbefore⟩
  · simp at h0
  · subst hpm
    refine ⟨helig, ?_, i, hi, hgi, ?_⟩
    · intro s hs hse
      have hle := hmin s hs hse
      rw [hdist] at hle
      exact hle
    · intro j hj hje
      have hlt := hbefore j hj hje
      rw [hdist2] at hlt
      exact hlt

/-- C10 witness: two eligible Swatches at exactly the same distance; the
first one in catalog order is returned. -/
theorem c10_witness :
    (getSpecFromPalette 500 [swA, swB] (fun _ => 0) 1 = some swA) ∧
    (eligible 1 swA ∧
     (∀ s ∈ [swA, swB], eligible 1 s →
        distLab 500 (fun _ => 0) swA ≤ distLab 500 (fun _ => 0) s) ∧
     ∃ i, i < ([swA, swB] : List ColorSpec).length ∧
       ([swA, swB] : List ColorSpec).getD i defaultSpec = swA ∧
       ∀ j, j < i → eligible 1 (([swA, swB] : List ColorSpec).getD j defaultSpec) →
         distLab 500 (fun _ => 0) swA
           < distLab 500 (fun _ => 0) (([swA, swB] : List ColorSpec).getD j defaultSpec)) := by
  have hsp : getSpecFromPalette 500 [swA, swB] (fun _ => 0) 1 = some swA := by
    norm_num [getSpecFromPalette, paletteFold, List.foldl, paletteStep, beats, distLab, swA, swB]
  exact ⟨hsp, c10_tie_break_first 500 [swA, swB] (fun _ => 0) 1 swA hsp⟩

/-- An everywhere-available Swatch with the given name. -/
def mkSw (n : String) : ColorSpec := ⟨n, n, 0, 0, 0, fun _ => 0, fun _ => '+'⟩

/-- Six distinct Swatches chosen for the six cells of one tile. -/
def cexAvgs : Fin 6 → ColorSpec :=
  ![mkSw "A", mkSw "B", mkSw "C", mkSw "D", mkSw "E", mkSw "F"]

/-- An empty part-count table. -/
def zeroCounts : String → Fin 4 → ℕ := fun _ _ => 0

/-- C2: the part-count lambda looks up `avgs[part]` instead of
`avgs[group]`, so with six distinct Swatches A..F on cells 0..5 the code
books all four quadrant cells to cell 1's Swatch B, the large circle
(category 3) to cell 3's Swatch D, and the small circle (category 2) to
cell 2's Swatch C; the cells' own Swatches A, E and F get no count, unlike
the spec-described tally `tallyTileSpec`, which counts each cell's own
Swatch once. -/
theorem c2_partcount_miscount :
    tallyTile cexAvgs zeroCounts "A" 1 = 0 ∧
    tallyTile cexAvgs zeroCounts "B" 1 = 4 ∧
    tallyTile cexAvgs zeroCounts "E" 3 = 0 ∧
    tallyTile cexAvgs zeroCounts "D" 3 = 1 ∧
    tallyTile cexAvgs zeroCounts "F" 2 = 0 ∧
    tallyTile cexAvgs zeroCounts "C" 2 = 1 ∧
    tallyTileSpec cexAvgs zeroCounts "A" 1 = 1 ∧
    tallyTileSpec cexAvgs zeroCounts "B" 1 = 1 ∧
    tallyTileSpec cexAvgs zeroCounts "E" 3 = 1 ∧
    tallyTileSpec cexAvgs zeroCounts "F" 2 = 1 := by
  decide

/-- A catalog file: header, a well-formed record A, a malformed record B
(letter where a color number is expected), then a well-formed record C. -/
def catInput1 : List Char :=
  ("h\n1,A,\"1,2,3\",ff,+,+,+,+\n2,B,\"x,2,3\",ff,+,+,+,+\n3,C,\"4,5,6\",ff,+,+,+,+\n").toList

/-- The same catalog file without the malformed middle record. -/
def catInput2 : List Char :=
  ("h\n1,A,\"1,2,3\",ff,+,+,+,+\n3,C,\"4,5,6\",ff,+,+,+,+\n").toList

/-- The record on the first data line of `catInput1`. -/
def recA : ColorSpec :=
  ⟨"1", "A", 1, 2, 3, fun _ => 0, !['+', '+', '+', '+']⟩

/-- The record on the last data line of `catInput1`. -/
def recC : ColorSpec :=
  ⟨"3", "C", 4, 5, 6, fun _ => 0, !['+', '+', '+', '+']⟩

/-- C6: the claim says well-formed records after a malformed one are still
loaded.  They are not: the malformed record B makes the `&&` chain fail,
the `while` loop exits, and record C — loadable on its own, as the second
input shows — is never stored. -/
theorem c6_counterexample :
    parsePalette catInput1 = [recA] ∧ parsePalette catInput2 = [recA, recC] := by
  constructor
  · decide
  · decide

/-- C6 (amended): a malformed record is dropped (never stored), but
loading does not continue: the record loop stops at the first record whose
field layout fails to parse, so nothing after it is loaded. -/
theorem c6_loading_stops (s : List Char) (fuel : ℕ) (h : parseRecord s = none) :
    parseRecords fuel s = [] := by
  cases fuel with
  | zero => rfl
  | succ f =>
    unfold parseRecords
    rw [h]

/-- The stream positioned at the malformed record of `catInput1`. -/
def malformedTail : List Char :=
  ("2,B,\"x,2,3\",ff,+,+,+,+\n3,C,\"4,5,6\",ff,+,+,+,+\n").toList

/-- C6 witness: the loop yields nothing from the malformed record on,
even though a well-formed record follows. -/
theorem c6_loading_stops_witness :
    parseRecord malformedTail = none ∧ parseRecords 5 malformedTail = [] :=
  ⟨by decide, c6_loading_stops malformedTail 5 (by decide)⟩

/-- Cells no pixel maps to keep zero counts and zero sums through the
aggregation sweep. -/
theorem aggregate_untouched (g : Fin 6) :
    ∀ (pixels : List (Fin 6 × Chan))
      (acc : (Fin 6 → Fin 3 → ℕ) × (Fin 6 → Fin 3 → ℚ)),
    (∀ p ∈ pixels, p.1 ≠ g) →
    (pixels.foldl aggStep acc).1 g = acc.1 g ∧
    (pixels.foldl aggStep acc).2 g = acc.2 g := by
  intro pixels
  induction pixels with
  | nil => intro acc _; exact ⟨rfl, rfl⟩
  | cons p t ih =>
    intro acc h
    have hp : p.1 ≠ g := h p (List.mem_cons_self p t)
    have hstep1 : (aggStep acc p).1 g = acc.1 g := by
      funext i
      show (if g = p.1 then acc.1 g i + 1 else acc.1 g i) = acc.1 g i
      rw [if_neg (fun he => hp he.symm)]
    have hstep2 : (aggStep acc p).2 g = acc.2 g := by
      funext i
      show (if g = p.1 then acc.2 g i + p.2 i else acc.2 g i) = acc.2 g i
      rw [if_neg (fun he => hp he.symm)]
    have ht := ih (aggStep acc p) (fun q hq => h q (List.mem_cons_of_mem p hq))
    exact ⟨ht.1.trans hstep1, ht.2.trans hstep2⟩

/-- C9: per cell and channel the mean is `sum / max(count, 1)`, with a
divisor of at least 1, so a cell covered by no pixel produces the zero
(black) vector without dividing by zero. -/
theorem c9_empty_cell_mean (pixels : List (Fin 6 × Chan)) (g : Fin 6)
    (h : ∀ p ∈ pixels, p.1 ≠ g) :
    (∀ i : Fin 3, 0 < max ((aggregate pixels).1 g i) 1) ∧
    groupValues pixels g = fun _ => 0 := by
  have hagg := aggregate_untouched g pixels (fun _ _ => 0, fun _ _ => 0) h
  constructor
  · intro i
    exact Nat.lt_of_lt_of_le Nat.one_pos (le_max_right _ 1)
  · funext i
    unfold groupValues
    rw [show (aggregate pixels).2 g i = 0 from congrFun hagg.2 i]
    exact zero_div _

/-- One pixel mapped to cell 0, leaving cell 5 empty. -/
def cexPixels : List (Fin 6 × Chan) := [(0, fun _ => 5)]

/-- C9 witness: the empty cell 5 of a one-pixel tile averages to black. -/
theorem c9_empty_cell_mean_witness :
    (∀ p ∈ cexPixels, p.1 ≠ 5) ∧
    ((∀ i : Fin 3, 0 < max ((aggregate cexPixels).1 5 i) 1) ∧
     groupValues cexPixels 5 = fun _ => 0) :=
  ⟨by decide, c9_empty_cell_mean cexPixels 5 (by decide)⟩

/-- C8: the claim says the buffers have 2 extra slots beyond the number of
tile columns.  For a 5-pixel-wide image with 2-pixel tiles the column loop
runs 3 times (the last column clipped), yet
`nrCols = 5 / 2 + 2 = 4 = 3 + 1`: only one slot beyond the tile columns,
not two. -/
theorem c8_counterexample :
    numTileCols 5 2 = 3 ∧ nrCols 5 2 = numTileCols 5 2 + 1 ∧
    nrCols 5 2 ≠ numTileCols 5 2 + 2 := by
  decide

/-- C8 (amended): for every image width and tile width and every processed
tile column, all diffusion-buffer accesses use indices that are at least 0
(the `nextRow[cc-1]` writes are guarded by `if (cc)`, so column −1 is
dropped, also in a 1-tile-wide image) and below the allocated
`nrCols = w / tw + 2`; every error value read as quantization input comes
from `currentRow[cc]` itself, never past the last real column.  The
buffers hold `w / tw + 2` entries, which always exceeds the number of tile
columns by at least one (by two only when the tile width divides the image
width). -/
theorem c8_bounds (w tw : ℕ) (htw : 0 < tw) (cc : ℕ) (hcc : cc < numTileCols w tw) :
    (∀ a ∈ tileAccesses cc, 0 ≤ a.idx ∧ a.idx < (nrCols w tw : ℤ)) ∧
    (∀ a ∈ tileAccesses cc, a.isInput = true → a.buf = RowBuf.currentRow ∧ a.idx = (cc : ℤ)) ∧
    numTileCols w tw < nrCols w tw ∧
    nrCols w tw = w / tw + 2 := by
  have hub : numTileCols w tw ≤ w / tw + 1 := by
    unfold numTileCols
    calc (w + tw - 1) / tw ≤ (w + tw) / tw := Nat.div_le_div_right (by omega)
      _ = w / tw + 1 := Nat.add_div_right w htw
  have hcc2 : cc ≤ w / tw := by omega
  refine ⟨?_, ?_, ?_, rfl⟩
  · intro a ha
    by_cases h0 : cc = 0
    · subst h0
      simp only [tileAccesses, ne_eq, not_true_eq_false, if_false, List.nil_append,
        List.append_nil, List.cons_append, List.mem_cons, List.not_mem_nil, or_false] at ha
      rcases ha with rfl | rfl | rfl | rfl | rfl | rfl | rfl | rfl | rfl | rfl | rfl | rfl |
        rfl | rfl | rfl | rfl | rfl | rfl | rfl | rfl | rfl | rfl | rfl | rfl | rfl | rfl | rfl <;>
        (simp only [nrCols]; omega)
    · simp only [tileAccesses, ne_eq, h0, not_false_eq_true, if_true, List.cons_append,
        List.nil_append, List.mem_cons, List.not_mem_nil, or_false] at ha
      rcases ha with rfl | rfl | rfl | rfl | rfl | rfl | rfl | rfl | rfl | rfl | rfl | rfl |
        rfl | rfl | rfl | rfl | rfl | rfl | rfl | rfl | rfl | rfl | rfl | rfl | rfl | rfl |
        rfl | rfl | rfl <;>
        (simp only [nrCols]; omega)
  · intro a ha hin
    by_cases h0 : cc = 0
    · subst h0
      simp only [tileAccesses, ne_eq, not_true_eq_false, if_false, List.nil_append,
        List.append_nil, List.cons_append, List.mem_cons, List.not_mem_nil, or_false] at ha
      rcases ha with rfl | rfl | rfl | rfl | rfl | rfl | rfl | rfl | rfl | rfl | rfl | rfl |
        rfl | rfl | rfl | rfl | rfl | rfl | rfl | rfl | rfl | rfl | rfl | rfl | rfl | rfl | rfl <;>
        simp_all
    · simp only [tileAccesses, ne_eq, h0, not_false_eq_true, if_true, List.cons_append,
        List.nil_append, List.mem_cons, List.not_mem_nil, or_false] at ha
      rcases ha with rfl | rfl | rfl | rfl | rfl | rfl | rfl | rfl | rfl | rfl | rfl | rfl |
        rfl | rfl | rfl | rfl | rfl | rfl | rfl | rfl | rfl | rfl | rfl | rfl | rfl | rfl |
        rfl | rfl | rfl <;>
        simp_all
  · simp only [nrCols]
    omega

/-- C8 witness: the single-column image case — one tile column, all
accesses in bounds and no negative index. -/
theorem c8_bounds_witness :
    (0 < 2 ∧ 0 < numTileCols 2 2) ∧
    ((∀ a ∈ tileAccesses 0, 0 ≤ a.idx ∧ a.idx < (nrCols 2 2 : ℤ)) ∧
     (∀ a ∈ tileAccesses 0, a.isInput = true → a.buf = RowBuf.currentRow ∧ a.idx = (0 : ℤ)) ∧
     numTileCols 2 2 < nrCols 2 2 ∧
     nrCols 2 2 = 2 / 2 + 2) :=
  ⟨⟨by decide, by decide⟩, c8_bounds 2 2 (by decide) 0 (by decide)⟩
